import Mathlib

/-!
Verification of the fetch-and-aggregate core of the evetrade data sync
service.  The definitions below are shallow embeddings of the Python
functions in `src/sync_service` and `src/esipy`; the theorems settle the
spec's claims about them.
-/

/-! ## Best-order aggregation (`find_best_orders`, `citadel_data.py`)

A market order record as consumed by `find_best_orders`: by that point every
record carries a `station_id` (set by `enrich_orders`), a `type_id`, a price
and its side.  `order_id` stands for the passthrough fields that take no part
in the aggregation; prices are only ever compared, so they are modelled as
integers. -/
structure RawOrder where
  station_id : Nat
  type_id : Nat
  price : Int
  is_buy_order : Bool
  order_id : Nat
deriving DecidableEq, Repr

/-- The aggregation key `(station_id, type_id)` under which
`best_orders[station_id][type_id]` stores its accumulator. -/
def orderKey (o : RawOrder) : Nat × Nat := (o.station_id, o.type_id)

/-- The per-key accumulator `{"buy_order": ..., "sell_order": ...}`,
generic in the record type because `market_data.py` runs the same
accumulator over its own record shape. -/
structure BestPair (α : Type) where
  buy_order : Option α
  sell_order : Option α
deriving DecidableEq, Repr

/-- One step of the accumulator update: a buy order replaces the stored buy
order when its price is strictly greater, a sell order replaces the stored
sell order when its price is strictly smaller (`citadel_data.py` lines
197-206, `market_data.py` lines 118-125). -/
def updatePair (price : α → Int) (isBuy : α → Bool) (p : BestPair α) (o : α) :
    BestPair α :=
  if isBuy o then
    match p.buy_order with
    | none => ⟨some o, p.sell_order⟩
    | some b => if price o > price b then ⟨some o, p.sell_order⟩ else p
  else
    match p.sell_order with
    | none => ⟨p.buy_order, some o⟩
    | some s => if price o < price s then ⟨p.buy_order, some o⟩ else p

/-- The buy-side of `updatePair`, in isolation. -/
def buyStep (price : α → Int) (acc : Option α) (o : α) : Option α :=
  match acc with
  | none => some o
  | some b => if price o > price b then some o else some b

/-- The sell-side of `updatePair`, in isolation. -/
def sellStep (price : α → Int) (acc : Option α) (o : α) : Option α :=
  match acc with
  | none => some o
  | some s => if price o < price s then some o else some s

/-- Processing one record into the keyed accumulator: only the record's own
key is touched. -/
def bestOrdersUpd (m : Nat × Nat → BestPair RawOrder) (o : RawOrder) :
    Nat × Nat → BestPair RawOrder :=
  fun k =>
    if k = orderKey o then updatePair RawOrder.price RawOrder.is_buy_order (m k) o
    else m k

/-- The `best_orders` accumulator after the whole input list has been
processed (`citadel_data.py` lines 189-206), as a total map from keys to
pairs; a key never seen stays at the empty pair. -/
def bestOrdersMap (l : List RawOrder) : Nat × Nat → BestPair RawOrder :=
  l.foldl bestOrdersUpd (fun _ => ⟨none, none⟩)

/-- The aggregation keys present in the input.  The Python nested dict
iterates stations then types in insertion order; the theorems below are
insensitive to the enumeration order, only membership and the absence of
duplicates matter. -/
def aggKeys (l : List RawOrder) : List (Nat × Nat) := (l.map orderKey).dedup

/-- Flattening one accumulator pair into the output: the buy order (if any)
followed by the sell order (if any) (`citadel_data.py` lines 208-214). -/
def pairOrders (p : BestPair α) : List α :=
  (match p.buy_order with | some b => [b] | none => []) ++
  (match p.sell_order with | some s => [s] | none => [])

/-- `find_best_orders` (`citadel_data.py` lines 185-215): fold every record
into the keyed accumulator, then emit each key's surviving buy and sell
orders. -/
def find_best_orders (l : List RawOrder) : List RawOrder :=
  (aggKeys l).flatMap fun k => pairOrders (bestOrdersMap l k)

/-- The buy orders of the input that carry a given key. -/
def buyPred (k : Nat × Nat) (o : RawOrder) : Bool :=
  decide (orderKey o = k) && o.is_buy_order

/-- The sell orders of the input that carry a given key. -/
def sellPred (k : Nat × Nat) (o : RawOrder) : Bool :=
  decide (orderKey o = k) && !o.is_buy_order

def buysFor (k : Nat × Nat) (l : List RawOrder) : List RawOrder :=
  l.filter (buyPred k)

def sellsFor (k : Nat × Nat) (l : List RawOrder) : List RawOrder :=
  l.filter (sellPred k)

section AggregationScratch

/-- The spec's §8 example scenario, as a sanity check of the embedding:
input `[(1,5,10,buy), (1,5,12,buy), (1,5,9,sell), (1,5,7,sell)]` yields
`[(price 12, buy), (price 7, sell)]` for key `(1,5)`. -/
example :
    find_best_orders
      [⟨1, 5, 10, true, 0⟩, ⟨1, 5, 12, true, 1⟩, ⟨1, 5, 9, false, 2⟩,
        ⟨1, 5, 7, false, 3⟩]
      = [⟨1, 5, 12, true, 1⟩, ⟨1, 5, 7, false, 3⟩] := by decide

/-- Tie-break sanity check: equal prices keep the first-seen record. -/
example :
    find_best_orders [⟨1, 5, 12, true, 7⟩, ⟨1, 5, 12, true, 8⟩]
      = [⟨1, 5, 12, true, 7⟩] := by decide

end AggregationScratch

/-! ### Accumulator lemmas -/

lemma updatePair_buy_order (price : α → Int) (isBuy : α → Bool)
    (p : BestPair α) (o : α) :
    (updatePair price isBuy p o).buy_order =
      if isBuy o then buyStep price p.buy_order o else p.buy_order := by
  unfold updatePair buyStep
  by_cases h : isBuy o
  · cases hb : p.buy_order with
    | none => simp [h]
    | some b => by_cases h2 : price o > price b <;> simp [h, h2, hb]
  · cases hs : p.sell_order with
    | none => simp [h]
    | some s => by_cases h2 : price o < price s <;> simp [h, h2, hs]

lemma updatePair_sell_order (price : α → Int) (isBuy : α → Bool)
    (p : BestPair α) (o : α) :
    (updatePair price isBuy p o).sell_order =
      if isBuy o then p.sell_order else sellStep price p.sell_order o := by
  unfold updatePair sellStep
  by_cases h : isBuy o
  · cases hb : p.buy_order with
    | none => simp [h]
    | some b => by_cases h2 : price o > price b <;> simp [h, h2, hb]
  · cases hs : p.sell_order with
    | none => simp [h]
    | some s => by_cases h2 : price o < price s <;> simp [h, h2, hs]

lemma foldl_updatePair_buy (price : α → Int) (isBuy : α → Bool)
    (l : List α) : ∀ p : BestPair α,
    (l.foldl (updatePair price isBuy) p).buy_order =
      (l.filter isBuy).foldl (buyStep price) p.buy_order := by
  induction l with
  | nil => intro p; rfl
  | cons o l ih =>
    intro p
    rw [List.foldl_cons, ih, List.filter_cons]
    by_cases h : isBuy o
    · simp [h, updatePair_buy_order]
    · simp [h, updatePair_buy_order]

lemma foldl_updatePair_sell (price : α → Int) (isBuy : α → Bool)
    (l : List α) : ∀ p : BestPair α,
    (l.foldl (updatePair price isBuy) p).sell_order =
      (l.filter (fun o => !isBuy o)).foldl (sellStep price) p.sell_order := by
  induction l with
  | nil => intro p; rfl
  | cons o l ih =>
    intro p
    rw [List.foldl_cons, ih, List.filter_cons]
    by_cases h : isBuy o
    · simp [h, updatePair_sell_order]
    · simp [h, updatePair_sell_order]

lemma foldl_bestOrdersUpd (l : List RawOrder) :
    ∀ (m : Nat × Nat → BestPair RawOrder) (k : Nat × Nat),
    (l.foldl bestOrdersUpd m) k =
      (l.filter (fun o => decide (orderKey o = k))).foldl
        (updatePair RawOrder.price RawOrder.is_buy_order) (m k) := by
  induction l with
  | nil => intro m k; rfl
  | cons o l ih =>
    intro m k
    rw [List.foldl_cons, ih, List.filter_cons]
    by_cases h : orderKey o = k
    · subst h
      simp [bestOrdersUpd]
    · have hk : k ≠ orderKey o := fun hh => h hh.symm
      simp [h, bestOrdersUpd, hk]

lemma bestOrdersMap_buy (l : List RawOrder) (k : Nat × Nat) :
    (bestOrdersMap l k).buy_order =
      (buysFor k l).foldl (buyStep RawOrder.price) none := by
  have hf : ∀ a : RawOrder,
      (a.is_buy_order && decide (orderKey a = k)) = buyPred k a := by
    intro a; unfold buyPred; rw [Bool.and_comm]
  unfold bestOrdersMap buysFor
  rw [foldl_bestOrdersUpd, foldl_updatePair_buy, List.filter_filter]
  simp only [hf]

lemma bestOrdersMap_sell (l : List RawOrder) (k : Nat × Nat) :
    (bestOrdersMap l k).sell_order =
      (sellsFor k l).foldl (sellStep RawOrder.price) none := by
  have hf : ∀ a : RawOrder,
      ((!a.is_buy_order) && decide (orderKey a = k)) = sellPred k a := by
    intro a; unfold sellPred; rw [Bool.and_comm]
  unfold bestOrdersMap sellsFor
  rw [foldl_bestOrdersUpd, foldl_updatePair_sell, List.filter_filter]
  simp only [hf]

/-! ### The winner of a fold is the first-seen best element -/

lemma buyFold_ne_none (price : α → Int) (l : List α) (b : α) :
    l.foldl (buyStep price) (some b) ≠ none := by
  induction l generalizing b with
  | nil => simp
  | cons o l ih =>
    rw [List.foldl_cons]
    by_cases h : price o > price b
    · rw [show buyStep price (some b) o = some o from by simp [buyStep, h]]
      exact ih o
    · rw [show buyStep price (some b) o = some b from by simp [buyStep, h]]
      exact ih b

lemma sellFold_ne_none (price : α → Int) (l : List α) (s : α) :
    l.foldl (sellStep price) (some s) ≠ none := by
  induction l generalizing s with
  | nil => simp
  | cons o l ih =>
    rw [List.foldl_cons]
    by_cases h : price o < price s
    · rw [show sellStep price (some s) o = some o from by simp [sellStep, h]]
      exact ih o
    · rw [show sellStep price (some s) o = some s from by simp [sellStep, h]]
      exact ih s

lemma buyFold_none_iff (price : α → Int) (l : List α) :
    l.foldl (buyStep price) none = none ↔ l = [] := by
  cases l with
  | nil => simp
  | cons o l =>
    rw [List.foldl_cons]
    simpa [buyStep] using buyFold_ne_none price l o

lemma sellFold_none_iff (price : α → Int) (l : List α) :
    l.foldl (sellStep price) none = none ↔ l = [] := by
  cases l with
  | nil => simp
  | cons o l =>
    rw [List.foldl_cons]
    simpa [sellStep] using sellFold_ne_none price l o

/-- The buy fold returns the first element whose price is maximal: every
element strictly before it is strictly cheaper, every element after it is no
more expensive. -/
lemma buyFold_firstMax (price : α → Int) (l : List α) :
    ∀ b, l.foldl (buyStep price) none = some b →
    ∃ l1 l2, l = l1 ++ b :: l2 ∧ (∀ o ∈ l1, price o < price b) ∧
      (∀ o ∈ l2, price o ≤ price b) := by
  induction l using List.reverseRecOn with
  | nil => intro b h; simp at h
  | append_singleton l o ih =>
    intro b h
    rw [List.foldl_append, List.foldl_cons, List.foldl_nil] at h
    cases hres : l.foldl (buyStep price) none with
    | none =>
      have hl : l = [] := (buyFold_none_iff price l).1 hres
      subst hl
      simp only [List.foldl_nil] at h
      rw [show buyStep price none o = some o from rfl] at h
      cases h
      exact ⟨[], [], by simp⟩
    | some c =>
      rw [hres] at h
      rw [show buyStep price (some c) o =
        if price o > price c then some o else some c from rfl] at h
      obtain ⟨l1, l2, hsplit, hpre, hpost⟩ := ih c hres
      by_cases hgt : price o > price c
      · rw [if_pos hgt] at h
        cases h
        refine ⟨l, [], by simp, ?_, by simp⟩
        intro x hx
        rw [hsplit] at hx
        rcases List.mem_append.1 hx with hx1 | hx2
        · exact lt_trans (hpre x hx1) hgt
        · rcases List.mem_cons.1 hx2 with rfl | hx3
          · exact hgt
          · exact lt_of_le_of_lt (hpost x hx3) hgt
      · rw [if_neg hgt] at h
        cases h
        refine ⟨l1, l2 ++ [o], by simp [hsplit], hpre, ?_⟩
        intro x hx
        rcases List.mem_append.1 hx with hx1 | hx2
        · exact hpost x hx1
        · rcases List.mem_cons.1 hx2 with rfl | hx3
          · exact le_of_not_lt hgt
          · simp at hx3

/-- The sell fold returns the first element whose price is minimal,
mirror image of `buyFold_firstMax`. -/
lemma sellFold_firstMin (price : α → Int) (l : List α) :
    ∀ s, l.foldl (sellStep price) none = some s →
    ∃ l1 l2, l = l1 ++ s :: l2 ∧ (∀ o ∈ l1, price s < price o) ∧
      (∀ o ∈ l2, price s ≤ price o) := by
  induction l using List.reverseRecOn with
  | nil => intro s h; simp at h
  | append_singleton l o ih =>
    intro s h
    rw [List.foldl_append, List.foldl_cons, List.foldl_nil] at h
    cases hres : l.foldl (sellStep price) none with
    | none =>
      have hl : l = [] := (sellFold_none_iff price l).1 hres
      subst hl
      simp only [List.foldl_nil] at h
      rw [show sellStep price none o = some o from rfl] at h
      cases h
      exact ⟨[], [], by simp⟩
    | some c =>
      rw [hres] at h
      rw [show sellStep price (some c) o =
        if price o < price c then some o else some c from rfl] at h
      obtain ⟨l1, l2, hsplit, hpre, hpost⟩ := ih c hres
      by_cases hlt : price o < price c
      · rw [if_pos hlt] at h
        cases h
        refine ⟨l, [], by simp, ?_, by simp⟩
        intro x hx
        rw [hsplit] at hx
        rcases List.mem_append.1 hx with hx1 | hx2
        · exact lt_trans hlt (hpre x hx1)
        · rcases List.mem_cons.1 hx2 with rfl | hx3
          · exact hlt
          · exact lt_of_lt_of_le hlt (hpost x hx3)
      · rw [if_neg hlt] at h
        cases h
        refine ⟨l1, l2 ++ [o], by simp [hsplit], hpre, ?_⟩
        intro x hx
        rcases List.mem_append.1 hx with hx1 | hx2
        · exact hpost x hx1
        · rcases List.mem_cons.1 hx2 with rfl | hx3
          · exact le_of_not_lt hlt
          · simp at hx3

/-! ### Characterising the emitted records per aggregation key -/

lemma bestOrdersMap_buy_key (l : List RawOrder) (k : Nat × Nat) (b : RawOrder)
    (h : (bestOrdersMap l k).buy_order = some b) :
    b ∈ l ∧ orderKey b = k ∧ b.is_buy_order = true := by
  rw [bestOrdersMap_buy] at h
  obtain ⟨l1, l2, hsplit, -, -⟩ := buyFold_firstMax _ _ b h
  have hmem : b ∈ buysFor k l := by rw [hsplit]; simp
  have hm := List.mem_filter.1 hmem
  have h2 := hm.2
  simp only [buyPred, Bool.and_eq_true, decide_eq_true_eq] at h2
  exact ⟨hm.1, h2.1, h2.2⟩

lemma bestOrdersMap_sell_key (l : List RawOrder) (k : Nat × Nat) (s : RawOrder)
    (h : (bestOrdersMap l k).sell_order = some s) :
    s ∈ l ∧ orderKey s = k ∧ s.is_buy_order = false := by
  rw [bestOrdersMap_sell] at h
  obtain ⟨l1, l2, hsplit, -, -⟩ := sellFold_firstMin _ _ s h
  have hmem : s ∈ sellsFor k l := by rw [hsplit]; simp
  have hm := List.mem_filter.1 hmem
  have h2 := hm.2
  simp only [sellPred, Bool.and_eq_true, decide_eq_true_eq,
    Bool.not_eq_true'] at h2
  exact ⟨hm.1, h2.1, h2.2⟩

lemma flatMap_filter (f : γ → List α) (p : α → Bool) (l : List γ) :
    (l.flatMap f).filter p = l.flatMap fun a => (f a).filter p := by
  induction l with
  | nil => rfl
  | cons a l ih => rw [List.flatMap_cons, List.flatMap_cons, List.filter_append, ih]

lemma flatMap_eq_single [DecidableEq γ] (k : γ) (X : List α)
    (ks : List γ) (hnd : ks.Nodup) :
    (ks.flatMap fun k2 => if k2 = k then X else []) =
      if k ∈ ks then X else [] := by
  induction ks with
  | nil => simp
  | cons a ks ih =>
    rw [List.flatMap_cons]
    rcases List.nodup_cons.1 hnd with ⟨ha, hnd2⟩
    by_cases hak : a = k
    · subst hak
      simp [ih hnd2, ha]
    · have hka : ¬ k = a := fun hh => hak hh.symm
      simp [hak, ih hnd2, List.mem_cons, hka]

lemma pairOrders_eq (p : BestPair α) :
    pairOrders p = p.buy_order.toList ++ p.sell_order.toList := by
  cases p with
  | mk b s => cases b <;> cases s <;> rfl

lemma pairOrders_filter_buy (l : List RawOrder) (k k2 : Nat × Nat) :
    (pairOrders (bestOrdersMap l k2)).filter (buyPred k) =
      if k2 = k then ((bestOrdersMap l k).buy_order).toList else [] := by
  have hsell : ((bestOrdersMap l k2).sell_order.toList).filter (buyPred k) = [] := by
    cases hs : (bestOrdersMap l k2).sell_order with
    | none => rfl
    | some s =>
      obtain ⟨-, -, hside⟩ := bestOrdersMap_sell_key l k2 s hs
      simp [buyPred, hside]
  rw [pairOrders_eq, List.filter_append, hsell, List.append_nil]
  cases hb : (bestOrdersMap l k2).buy_order with
  | none =>
    by_cases hk : k2 = k
    · subst hk; simp [hb]
    · simp [hk]
  | some b =>
    obtain ⟨-, hkey, hside⟩ := bestOrdersMap_buy_key l k2 b hb
    by_cases hk : k2 = k
    · subst hk
      simp [buyPred, hkey, hside, hb]
    · simp [buyPred, hkey, hside, hk]

lemma pairOrders_filter_sell (l : List RawOrder) (k k2 : Nat × Nat) :
    (pairOrders (bestOrdersMap l k2)).filter (sellPred k) =
      if k2 = k then ((bestOrdersMap l k).sell_order).toList else [] := by
  have hbuy : ((bestOrdersMap l k2).buy_order.toList).filter (sellPred k) = [] := by
    cases hb : (bestOrdersMap l k2).buy_order with
    | none => rfl
    | some b =>
      obtain ⟨-, -, hside⟩ := bestOrdersMap_buy_key l k2 b hb
      simp [sellPred, hside]
  rw [pairOrders_eq, List.filter_append, hbuy, List.nil_append]
  cases hs : (bestOrdersMap l k2).sell_order with
  | none =>
    by_cases hk : k2 = k
    · subst hk; simp [hs]
    · simp [hk]
  | some s =>
    obtain ⟨-, hkey, hside⟩ := bestOrdersMap_sell_key l k2 s hs
    by_cases hk : k2 = k
    · subst hk
      simp [sellPred, hkey, hside, hs]
    · simp [sellPred, hkey, hside, hk]

lemma buysFor_eq_nil (l : List RawOrder) (k : Nat × Nat)
    (h : k ∉ aggKeys l) : buysFor k l = [] := by
  unfold buysFor
  rw [List.filter_eq_nil_iff]
  intro o ho hpo
  apply h
  simp only [buyPred, Bool.and_eq_true, decide_eq_true_eq] at hpo
  unfold aggKeys
  rw [List.mem_dedup]
  exact hpo.1 ▸ List.mem_map_of_mem orderKey ho

lemma sellsFor_eq_nil (l : List RawOrder) (k : Nat × Nat)
    (h : k ∉ aggKeys l) : sellsFor k l = [] := by
  unfold sellsFor
  rw [List.filter_eq_nil_iff]
  intro o ho hpo
  apply h
  simp only [sellPred, Bool.and_eq_true, decide_eq_true_eq] at hpo
  unfold aggKeys
  rw [List.mem_dedup]
  exact hpo.1 ▸ List.mem_map_of_mem orderKey ho

/-- The buy records of the output that carry key `k` are exactly the
accumulator's surviving buy order for `k`. -/
lemma find_best_orders_filter_buy (l : List RawOrder) (k : Nat × Nat) :
    (find_best_orders l).filter (buyPred k) =
      ((bestOrdersMap l k).buy_order).toList := by
  unfold find_best_orders
  rw [flatMap_filter]
  have hblocks : (fun k2 => (pairOrders (bestOrdersMap l k2)).filter (buyPred k)) =
      fun k2 => if k2 = k then ((bestOrdersMap l k).buy_order).toList else [] := by
    funext k2; exact pairOrders_filter_buy l k k2
  have hnd : (aggKeys l).Nodup := by unfold aggKeys; exact List.nodup_dedup _
  rw [hblocks, flatMap_eq_single k _ _ hnd]
  by_cases hk : k ∈ aggKeys l
  · rw [if_pos hk]
  · rw [if_neg hk, bestOrdersMap_buy, buysFor_eq_nil l k hk]
    rfl

/-- The sell records of the output that carry key `k` are exactly the
accumulator's surviving sell order for `k`. -/
lemma find_best_orders_filter_sell (l : List RawOrder) (k : Nat × Nat) :
    (find_best_orders l).filter (sellPred k) =
      ((bestOrdersMap l k).sell_order).toList := by
  unfold find_best_orders
  rw [flatMap_filter]
  have hblocks : (fun k2 => (pairOrders (bestOrdersMap l k2)).filter (sellPred k)) =
      fun k2 => if k2 = k then ((bestOrdersMap l k).sell_order).toList else [] := by
    funext k2; exact pairOrders_filter_sell l k k2
  have hnd : (aggKeys l).Nodup := by unfold aggKeys; exact List.nodup_dedup _
  rw [hblocks, flatMap_eq_single k _ _ hnd]
  by_cases hk : k ∈ aggKeys l
  · rw [if_pos hk]
  · rw [if_neg hk, bestOrdersMap_sell, sellsFor_eq_nil l k hk]
    rfl

lemma eq_singleton_of_mem_of_length_le (l : List α) (a : α)
    (hm : a ∈ l) (hl : l.length ≤ 1) : l = [a] := by
  cases l with
  | nil => simp at hm
  | cons x xs =>
    cases xs with
    | nil => rcases List.mem_singleton.1 hm with rfl; rfl
    | cons y ys => simp at hl

lemma find_best_orders_subset (l : List RawOrder) :
    ∀ o ∈ find_best_orders l, o ∈ l := by
  intro o ho
  unfold find_best_orders at ho
  rw [List.mem_flatMap] at ho
  obtain ⟨k, -, hp⟩ := ho
  rw [pairOrders_eq] at hp
  rcases List.mem_append.1 hp with h1 | h2
  · cases hb : (bestOrdersMap l k).buy_order with
    | none => rw [hb] at h1; simp at h1
    | some b =>
      rw [hb] at h1
      simp at h1
      rw [h1]
      exact (bestOrdersMap_buy_key l k b hb).1
  · cases hs : (bestOrdersMap l k).sell_order with
    | none => rw [hs] at h2; simp at h2
    | some s =>
      rw [hs] at h2
      simp at h2
      rw [h2]
      exact (bestOrdersMap_sell_key l k s hs).1

/-- The spec's §8 example input, reused as a concrete witness below. -/
def exampleOrders : List RawOrder :=
  [⟨1, 5, 10, true, 0⟩, ⟨1, 5, 12, true, 1⟩, ⟨1, 5, 9, false, 2⟩, ⟨1, 5, 7, false, 3⟩]

/-- C1: for every input list and every aggregation key, the output of
`find_best_orders` holds at most one buy and at most one sell record of that
key; the emitted buy record's price bounds from above the price of every buy
record of that key in the input, the emitted sell record's price bounds them
from below, and ties go to the first-seen record (every earlier candidate is
strictly worse, every later one no better). -/
theorem find_best_orders_best_per_key (l : List RawOrder) (k : Nat × Nat) :
    ((find_best_orders l).countP (buyPred k) ≤ 1 ∧
     (find_best_orders l).countP (sellPred k) ≤ 1) ∧
    (∀ b ∈ find_best_orders l, orderKey b = k → b.is_buy_order = true →
      (∀ o ∈ l, orderKey o = k → o.is_buy_order = true → o.price ≤ b.price) ∧
      ∃ l1 l2, buysFor k l = l1 ++ b :: l2 ∧
        (∀ o ∈ l1, o.price < b.price) ∧ (∀ o ∈ l2, o.price ≤ b.price)) ∧
    (∀ s ∈ find_best_orders l, orderKey s = k → s.is_buy_order = false →
      (∀ o ∈ l, orderKey o = k → o.is_buy_order = false → s.price ≤ o.price) ∧
      ∃ l1 l2, sellsFor k l = l1 ++ s :: l2 ∧
        (∀ o ∈ l1, s.price < o.price) ∧ (∀ o ∈ l2, s.price ≤ o.price)) := by
  refine ⟨⟨?_, ?_⟩, ?_, ?_⟩
  · rw [List.countP_eq_length_filter, find_best_orders_filter_buy]
    cases (bestOrdersMap l k).buy_order <;> simp
  · rw [List.countP_eq_length_filter, find_best_orders_filter_sell]
    cases (bestOrdersMap l k).sell_order <;> simp
  · intro b hb hkey hside
    have hf : b ∈ (find_best_orders l).filter (buyPred k) :=
      List.mem_filter.2 ⟨hb, by simp [buyPred, hkey, hside]⟩
    rw [find_best_orders_filter_buy] at hf
    have hsome : (bestOrdersMap l k).buy_order = some b := by
      cases hbo : (bestOrdersMap l k).buy_order with
      | none => rw [hbo] at hf; simp at hf
      | some c => rw [hbo] at hf; simp at hf; rw [hf]
    rw [bestOrdersMap_buy] at hsome
    obtain ⟨l1, l2, hsplit, hpre, hpost⟩ := buyFold_firstMax _ _ b hsome
    constructor
    · intro o ho hok hob
      have hmem : o ∈ buysFor k l :=
        List.mem_filter.2 ⟨ho, by simp [buyPred, hok, hob]⟩
      rw [hsplit] at hmem
      rcases List.mem_append.1 hmem with h1 | h2
      · exact le_of_lt (hpre o h1)
      · rcases List.mem_cons.1 h2 with rfl | h3
        · exact le_refl _
        · exact hpost o h3
    · exact ⟨l1, l2, hsplit, hpre, hpost⟩
  · intro s hs hkey hside
    have hf : s ∈ (find_best_orders l).filter (sellPred k) :=
      List.mem_filter.2 ⟨hs, by simp [sellPred, hkey, hside]⟩
    rw [find_best_orders_filter_sell] at hf
    have hsome : (bestOrdersMap l k).sell_order = some s := by
      cases hso : (bestOrdersMap l k).sell_order with
      | none => rw [hso] at hf; simp at hf
      | some c => rw [hso] at hf; simp at hf; rw [hf]
    rw [bestOrdersMap_sell] at hsome
    obtain ⟨l1, l2, hsplit, hpre, hpost⟩ := sellFold_firstMin _ _ s hsome
    constructor
    · intro o ho hok hob
      have hmem : o ∈ sellsFor k l :=
        List.mem_filter.2 ⟨ho, by simp [sellPred, hok, hob]⟩
      rw [hsplit] at hmem
      rcases List.mem_append.1 hmem with h1 | h2
      · exact le_of_lt (hpre o h1)
      · rcases List.mem_cons.1 h2 with rfl | h3
        · exact le_refl _
        · exact hpost o h3
    · exact ⟨l1, l2, hsplit, hpre, hpost⟩

/-- C1 witness: the best-per-key theorem instantiated at the spec's §8
example input and key `(1, 5)`. -/
theorem find_best_orders_best_per_key_witness :
    ((find_best_orders exampleOrders).countP (buyPred (1, 5)) ≤ 1 ∧
     (find_best_orders exampleOrders).countP (sellPred (1, 5)) ≤ 1) ∧
    (∀ b ∈ find_best_orders exampleOrders, orderKey b = (1, 5) →
      b.is_buy_order = true →
      (∀ o ∈ exampleOrders, orderKey o = (1, 5) → o.is_buy_order = true →
        o.price ≤ b.price) ∧
      ∃ l1 l2, buysFor (1, 5) exampleOrders = l1 ++ b :: l2 ∧
        (∀ o ∈ l1, o.price < b.price) ∧ (∀ o ∈ l2, o.price ≤ b.price)) ∧
    (∀ s ∈ find_best_orders exampleOrders, orderKey s = (1, 5) →
      s.is_buy_order = false →
      (∀ o ∈ exampleOrders, orderKey o = (1, 5) → o.is_buy_order = false →
        s.price ≤ o.price) ∧
      ∃ l1 l2, sellsFor (1, 5) exampleOrders = l1 ++ s :: l2 ∧
        (∀ o ∈ l1, s.price < o.price) ∧ (∀ o ∈ l2, s.price ≤ o.price)) :=
  find_best_orders_best_per_key exampleOrders (1, 5)

/-- An already-aggregated output: each key holds at most one buy and one
sell record. -/
def onePerSide (l : List RawOrder) : Prop :=
  ∀ k ∈ aggKeys l, (buysFor k l).length ≤ 1 ∧ (sellsFor k l).length ≤ 1

instance (l : List RawOrder) : Decidable (onePerSide l) := by
  unfold onePerSide
  infer_instance

/-- C6: on an input in which every key appears at most once per side -- in
particular on any output of the aggregation itself -- `find_best_orders`
returns the same records (as a set). -/
theorem find_best_orders_idempotent (l : List RawOrder)
    (h : onePerSide l) :
    ∀ o, o ∈ find_best_orders l ↔ o ∈ l := by
  intro o
  constructor
  · exact fun ho => find_best_orders_subset l o ho
  · intro ho
    have hk : orderKey o ∈ aggKeys l := by
      unfold aggKeys
      rw [List.mem_dedup]
      exact List.mem_map_of_mem orderKey ho
    by_cases hside : o.is_buy_order
    · have hmem : o ∈ buysFor (orderKey o) l :=
        List.mem_filter.2 ⟨ho, by simp [buyPred, hside]⟩
      have hsingle : buysFor (orderKey o) l = [o] :=
        eq_singleton_of_mem_of_length_le _ o hmem (h _ hk).1
      have hsome : (bestOrdersMap l (orderKey o)).buy_order = some o := by
        rw [bestOrdersMap_buy, hsingle]
        rfl
      have hfo : o ∈ (find_best_orders l).filter (buyPred (orderKey o)) := by
        rw [find_best_orders_filter_buy, hsome]
        simp
      exact List.mem_of_mem_filter hfo
    · have hmem : o ∈ sellsFor (orderKey o) l :=
        List.mem_filter.2 ⟨ho, by simp [sellPred, hside]⟩
      have hsingle : sellsFor (orderKey o) l = [o] :=
        eq_singleton_of_mem_of_length_le _ o hmem (h _ hk).2
      have hsome : (bestOrdersMap l (orderKey o)).sell_order = some o := by
        rw [bestOrdersMap_sell, hsingle]
        rfl
      have hfo : o ∈ (find_best_orders l).filter (sellPred (orderKey o)) := by
        rw [find_best_orders_filter_sell, hsome]
        simp
      exact List.mem_of_mem_filter hfo

/-- An aggregation output (the spec's §8 example output), used as the
concrete idempotence witness. -/
def aggFixedPoint : List RawOrder :=
  [⟨1, 5, 12, true, 1⟩, ⟨1, 5, 7, false, 3⟩]

/-- C6 witness: idempotence applied to the §8 example's aggregated output. -/
theorem find_best_orders_idempotent_witness :
    onePerSide aggFixedPoint ∧
    (∀ o, o ∈ find_best_orders aggFixedPoint ↔ o ∈ aggFixedPoint) :=
  ⟨by decide, find_best_orders_idempotent aggFixedPoint (by decide)⟩

/-! ## The market-data aggregation pass (`MarketData.execute_requests`,
`market_data.py` lines 105-143) -/

/-- `NON_STATION_ID_THRESHOLD` from `market_data.py`: location ids above it
denote player structures rather than stations. -/
def NON_STATION_ID_THRESHOLD : Nat := 99999999

/-- A raw ESI market order as consumed by the aggregation loop of
`execute_requests`: `location_id` and `type_id` are read with `dict.get`
and may be missing. -/
structure MarketOrder where
  location_id : Option Nat
  type_id : Option Nat
  price : Int
  is_buy_order : Bool
  order_id : Nat
deriving DecidableEq, Repr

/-- The key a record is aggregated under, `none` when the loop `continue`s
past it: first the `location_id > NON_STATION_ID_THRESHOLD` guard (a
missing `location_id` reads as 0 there), then the missing-field guard
(`market_data.py` lines 110-116). -/
def marketKeyOf (o : MarketOrder) : Option (Nat × Nat) :=
  if NON_STATION_ID_THRESHOLD < o.location_id.getD 0 then none
  else
    match o.location_id, o.type_id with
    | some s, some t => some (s, t)
    | _, _ => none

/-- Folding one record into the `best_orders` accumulator; a skipped record
leaves it untouched and creates no entry. -/
def marketStep (m : Nat × Nat → BestPair MarketOrder) (o : MarketOrder) :
    Nat × Nat → BestPair MarketOrder :=
  match marketKeyOf o with
  | none => m
  | some k0 => fun k =>
      if k = k0 then updatePair MarketOrder.price MarketOrder.is_buy_order (m k) o
      else m k

/-- The `best_orders` accumulator of `execute_requests` after the loop. -/
def marketBestOrders (l : List MarketOrder) : Nat × Nat → BestPair MarketOrder :=
  l.foldl marketStep (fun _ => ⟨none, none⟩)

/-- The keys holding an accumulator entry, i.e. the keys of the records
that were not skipped. -/
def marketKeys (l : List MarketOrder) : List (Nat × Nat) :=
  (l.filterMap marketKeyOf).dedup

/-- A record of the `valid_orders` output of `execute_requests` (lines
127-141): `location_id` is renamed to `station_id`, the region id is
attached, and `citadel` was set to `False` on every processed record. -/
structure StationOrder where
  station_id : Nat
  region_id : Nat
  type_id : Nat
  price : Int
  is_buy_order : Bool
  citadel : Bool
  order_id : Nat
deriving DecidableEq, Repr

/-- Emission of one winning record.  A winner was stored under its own key,
so its `location_id` and `type_id` are present and the `getD` defaults are
never exercised. -/
def marketEmit (region : Nat) (o : MarketOrder) : StationOrder :=
  { station_id := o.location_id.getD 0, region_id := region,
    type_id := o.type_id.getD 0, price := o.price,
    is_buy_order := o.is_buy_order, citadel := false, order_id := o.order_id }

/-- The aggregation-and-relabel stage of `execute_requests`
(`market_data.py` lines 105-143) applied to the fetched order list. -/
def execute_requests_aggregate (region : Nat) (l : List MarketOrder) :
    List StationOrder :=
  (marketKeys l).flatMap fun k =>
    (pairOrders (marketBestOrders l k)).map (marketEmit region)

section MarketScratch

example :
    execute_requests_aggregate 10000002
      [⟨some 60003760, some 34, 10, true, 0⟩,
       ⟨some 60003760, some 34, 12, true, 1⟩,
       ⟨some 100000001, some 34, 99, true, 2⟩,
       ⟨none, some 34, 50, true, 3⟩,
       ⟨some 60003760, none, 50, true, 4⟩]
      = [⟨60003760, 10000002, 34, 12, true, false, 1⟩] := by decide

end MarketScratch

/-- C9: a record whose `location_id` or `type_id` is missing -- like one
whose `location_id` exceeds the non-station threshold -- is silently
excluded from the aggregation: running the pass with the record present
yields exactly the output of running it with the record removed, so no
accumulator entry is created for it and nothing is emitted for it; the
pass is total, so no error is raised. -/
theorem execute_requests_skips_invalid (region : Nat)
    (l1 l2 : List MarketOrder) (o : MarketOrder)
    (h : o.location_id = none ∨ o.type_id = none ∨
      NON_STATION_ID_THRESHOLD < o.location_id.getD 0) :
    execute_requests_aggregate region (l1 ++ o :: l2) =
      execute_requests_aggregate region (l1 ++ l2) := by
  have hkey : marketKeyOf o = none := by
    unfold marketKeyOf
    rcases h with h | h | h
    · rw [h]
      cases o.type_id <;> rfl
    · split
      · rfl
      · rw [h]
        cases o.location_id <;> rfl
    · rw [if_pos h]
  have hstep : ∀ m, marketStep m o = m := by
    intro m
    unfold marketStep
    rw [hkey]
  have hmap : marketBestOrders (l1 ++ o :: l2) = marketBestOrders (l1 ++ l2) := by
    unfold marketBestOrders
    rw [List.foldl_append, List.foldl_append, List.foldl_cons, hstep]
  have hkeys : marketKeys (l1 ++ o :: l2) = marketKeys (l1 ++ l2) := by
    unfold marketKeys
    rw [List.filterMap_append, List.filterMap_append, List.filterMap_cons, hkey]
  unfold execute_requests_aggregate
  rw [hmap, hkeys]

/-- C9 witness: a record with a missing `type_id` is dropped from a
concrete two-record input. -/
theorem execute_requests_skips_invalid_witness :
    ((⟨some 60003760, none, 5, true, 9⟩ : MarketOrder).location_id = none ∨
     (⟨some 60003760, none, 5, true, 9⟩ : MarketOrder).type_id = none ∨
     NON_STATION_ID_THRESHOLD <
       ((⟨some 60003760, none, 5, true, 9⟩ : MarketOrder).location_id.getD 0)) ∧
    execute_requests_aggregate 10000002
        ([⟨some 60003760, some 34, 10, true, 0⟩] ++
          (⟨some 60003760, none, 5, true, 9⟩ : MarketOrder) :: []) =
      execute_requests_aggregate 10000002
        ([⟨some 60003760, some 34, 10, true, 0⟩] ++ []) :=
  ⟨Or.inr (Or.inl rfl),
    execute_requests_skips_invalid 10000002 _ _ _ (Or.inr (Or.inl rfl))⟩

/-! ## Page fan-out and gather (`execute_requests`, `market_data.py`
lines 93-103) -/

/-- The outcome of one fanned-out page task (`get_market_data`): the task
either returns the page's JSON payload -- a list of records, or some other
JSON value -- or raises (transport error, missing header, invalid JSON);
`get_market_data` has no try/except of its own. -/
inductive PageOutcome where
  | ok (records : List MarketOrder)
  | nonList
  | exn
deriving DecidableEq, Repr

def PageOutcome.isExn : PageOutcome → Bool
  | exn => true
  | _ => false

/-- What the merge loop keeps from one gathered page result: list payloads
are concatenated, anything else is logged and dropped (lines 99-103). -/
def pageRecords : PageOutcome → List MarketOrder
  | .ok rs => rs
  | .nonList => []
  | .exn => []

/-- The fan-out/collect stage of `execute_requests` (lines 93-103):
`asyncio.gather` is called without `return_exceptions`, so if any page task
raised, the exception propagates out of `execute_requests` (modelled as
`Except.error ()`); otherwise page 1's records (already in `self.orders`)
are followed by every list-payload page's records. -/
def gatherOrders (page1 : List MarketOrder) (pages : List PageOutcome) :
    Except Unit (List MarketOrder) :=
  if pages.any PageOutcome.isExn then Except.error ()
  else Except.ok (page1 ++ pages.flatMap pageRecords)

def pageOneRecords : List MarketOrder := [⟨some 60003760, some 34, 10, true, 0⟩]

def pageThreeRecords : List MarketOrder := [⟨some 60003760, some 34, 11, true, 1⟩]

/-- C2 counterexample: page 1 reported `total_pages = 3`; page 2's task
raised (timeout) and page 3 succeeded.  Contrary to the claim, the fetch
does not complete with page 1's and page 3's records: the gather re-raises
page 2's exception, and no record stream (hence also no failed-page count)
is returned at all. -/
theorem gatherOrders_not_isolated :
    gatherOrders pageOneRecords [PageOutcome.exn, PageOutcome.ok pageThreeRecords]
        = Except.error () ∧
    ¬ ∃ s, gatherOrders pageOneRecords
        [PageOutcome.exn, PageOutcome.ok pageThreeRecords] = Except.ok s := by
  refine ⟨rfl, ?_⟩
  rintro ⟨s, hs⟩
  rw [show gatherOrders pageOneRecords
      [PageOutcome.exn, PageOutcome.ok pageThreeRecords] = Except.error ()
    from rfl] at hs
  exact Except.noConfusion hs

/-- C2 amended: when no page task raises, the fetch completes without
raising and the stream holds page 1's records followed by each list-payload
page's records, a page with a non-record payload being merely absent; every
succeeded page's records are contained in the stream.  A raising page,
however, aborts the whole fetch (see the counterexample), and no
failed-page count is ever reported: `execute_requests` returns only the
order stream. -/
theorem gatherOrders_ok_of_no_exn (page1 : List MarketOrder)
    (pages : List PageOutcome) (h : ∀ p ∈ pages, p ≠ PageOutcome.exn) :
    gatherOrders page1 pages = Except.ok (page1 ++ pages.flatMap pageRecords) ∧
    ∀ p ∈ pages, ∀ rs, p = PageOutcome.ok rs →
      ∀ o ∈ rs, o ∈ page1 ++ pages.flatMap pageRecords := by
  have hany : pages.any PageOutcome.isExn = false := by
    rw [List.any_eq_false]
    intro p hp
    cases p with
    | ok rs => simp [PageOutcome.isExn]
    | nonList => simp [PageOutcome.isExn]
    | exn => exact absurd rfl (h _ hp)
  constructor
  · simp [gatherOrders, hany]
  · intro p hp rs hrs o ho
    rw [List.mem_append]
    right
    rw [List.mem_flatMap]
    refine ⟨p, hp, ?_⟩
    rw [hrs]
    exact ho

/-- C2 amended-claim witness: no page raises, one page carries a non-record
payload. -/
theorem gatherOrders_ok_of_no_exn_witness :
    (∀ p ∈ [PageOutcome.ok pageThreeRecords, PageOutcome.nonList],
        p ≠ PageOutcome.exn) ∧
    (gatherOrders pageOneRecords
        [PageOutcome.ok pageThreeRecords, PageOutcome.nonList] =
      Except.ok (pageOneRecords ++
        [PageOutcome.ok pageThreeRecords, PageOutcome.nonList].flatMap pageRecords) ∧
    ∀ p ∈ [PageOutcome.ok pageThreeRecords, PageOutcome.nonList],
      ∀ rs, p = PageOutcome.ok rs →
      ∀ o ∈ rs, o ∈ pageOneRecords ++
        [PageOutcome.ok pageThreeRecords, PageOutcome.nonList].flatMap pageRecords) :=
  ⟨by decide, gatherOrders_ok_of_no_exn _ _ (by decide)⟩

/-! ## Rate-limit throttle (`market_data.py` lines 57-82) -/

def ERROR_LIMIT_THRESHOLD : Nat := 20

/-- The throttle effect of `get_initial_market_data` (lines 57-70): given
the instance's current backoff and page 1's `X-Esi-Error-Limit-Remain`
header, it returns the new backoff and the sleeps performed, in seconds:
below the threshold it sleeps `self.backoff` and doubles it. -/
def get_initial_market_data_throttle (backoff : Nat) (limit_remain : Nat) :
    Nat × List Nat :=
  if limit_remain < ERROR_LIMIT_THRESHOLD then (backoff * 2, [backoff])
  else (backoff, [])

/-- The throttle effect of `get_market_data` (lines 72-82): it is a
`@staticmethod`, touches no backoff state, and below the threshold sleeps a
fixed 3 seconds. -/
def get_market_data_throttle (limit_remain : Nat) : List Nat :=
  if limit_remain < ERROR_LIMIT_THRESHOLD then [3] else []

/-- The sleeps performed during one `execute_requests` fetch operation,
given the rate-limit header of page 1 and of each fanned-out page: page 1
goes through `get_initial_market_data` with the instance's initial backoff
of 1 (`__init__`, line 39), each remaining page through `get_market_data`.
The fanned-out pages run concurrently, so only the multiset of their sleep
durations is meaningful; they are listed here in page order. -/
def execute_requests_sleeps (page1Limit : Nat) (pageLimits : List Nat) :
    List Nat :=
  (get_initial_market_data_throttle 1 page1Limit).2 ++
    pageLimits.flatMap get_market_data_throttle

/-- The instance's backoff after the fetch operation: only the page-1 path
ever writes it. -/
def execute_requests_backoff (page1Limit : Nat) : Nat :=
  (get_initial_market_data_throttle 1 page1Limit).1

/-- The schedule the claim describes, written out for comparison: every
page response below the threshold sleeps the operation's current backoff,
which starts at 1 and doubles on each consecutive trigger. -/
def claimedThrottleSleeps (page1Limit : Nat) (pageLimits : List Nat) :
    List Nat :=
  ((page1Limit :: pageLimits).foldl
    (fun st limit =>
      if limit < ERROR_LIMIT_THRESHOLD then (st.1 * 2, st.2 ++ [st.1]) else st)
    (1, [])).2

/-- C5 counterexample: with a healthy page 1 (budget 100) and one
fanned-out page below the threshold (budget 5), the operation's current
backoff is still its initial 1, yet the code sleeps a fixed 3 seconds; and
with three consecutive triggers the code sleeps 1, 3, 3 where the claimed
doubling schedule would sleep 1, 2, 4. -/
theorem throttle_not_doubling :
    execute_requests_sleeps 100 [5] = [3] ∧
    claimedThrottleSleeps 100 [5] = [1] ∧
    execute_requests_sleeps 100 [5] ≠ claimedThrottleSleeps 100 [5] ∧
    execute_requests_sleeps 5 [5, 5] = [1, 3, 3] ∧
    claimedThrottleSleeps 5 [5, 5] = [1, 2, 4] := by decide

/-- C5 amended: within one fetch operation, a page-1 response below the
threshold sleeps the operation's current backoff -- 1, since every fresh
`MarketData` starts with backoff 1 -- and doubles it; every fanned-out page
response below the threshold sleeps a fixed 3 seconds and leaves the
backoff untouched. -/
theorem execute_requests_throttle_spec (page1Limit : Nat)
    (pageLimits : List Nat) :
    execute_requests_sleeps page1Limit pageLimits =
      (if page1Limit < ERROR_LIMIT_THRESHOLD then [1] else []) ++
        pageLimits.flatMap get_market_data_throttle ∧
    (∀ s ∈ pageLimits.flatMap get_market_data_throttle, s = 3) ∧
    execute_requests_backoff page1Limit =
      (if page1Limit < ERROR_LIMIT_THRESHOLD then 2 else 1) := by
  refine ⟨?_, ?_, ?_⟩
  · unfold execute_requests_sleeps get_initial_market_data_throttle
    by_cases h : page1Limit < ERROR_LIMIT_THRESHOLD <;> simp [h]
  · intro s hs
    rw [List.mem_flatMap] at hs
    obtain ⟨limit, -, hmem⟩ := hs
    unfold get_market_data_throttle at hmem
    by_cases h : limit < ERROR_LIMIT_THRESHOLD
    · rw [if_pos h] at hmem
      simpa using hmem
    · rw [if_neg h] at hmem
      simp at hmem
  · unfold execute_requests_backoff get_initial_market_data_throttle
    by_cases h : page1Limit < ERROR_LIMIT_THRESHOLD <;> simp [h]

/-- C5 amended-claim witness at page-1 budget 5 and fan-out budgets 5 and
100. -/
theorem execute_requests_throttle_spec_witness :
    execute_requests_sleeps 5 [5, 100] =
      (if (5 : Nat) < ERROR_LIMIT_THRESHOLD then [1] else []) ++
        [5, 100].flatMap get_market_data_throttle ∧
    (∀ s ∈ [5, 100].flatMap get_market_data_throttle, s = 3) ∧
    execute_requests_backoff 5 =
      (if (5 : Nat) < ERROR_LIMIT_THRESHOLD then 2 else 1) :=
  execute_requests_throttle_spec 5 [5, 100]

/-! ## Retry loop (`EsiClient._retry_request`, `esipy/client.py`
lines 95-115) -/

/-- What one HTTP attempt inside `_retry_request` observes: a response with
a status code, or a raised `ConnectionError` / `Timeout`. -/
inductive AttemptOutcome where
  | resp (status : Nat)
  | exn
deriving DecidableEq, Repr

/-- The attempt outcomes the retry loop treats as transient: a connection
error or timeout, or a 5xx status. -/
def transient : AttemptOutcome → Bool
  | .resp s => decide (500 ≤ s) && decide (s ≤ 599)
  | .exn => true

/-- `time.sleep(retries**4 / 100)`: the delay slept after failure number
`n`; Python's float division is modelled exactly in the rationals. -/
def backoffDelay (n : Nat) : ℚ := (n : ℚ) ^ 4 / 100

/-- The observable trace of one `_retry_request` call: the result
(`Except.error ()` models `raise APIException(url, 500, ...)`,
`Except.ok s` models returning the response with status `s`), the number of
HTTP attempts made, and the sleeps performed, in order. -/
structure RetryTrace where
  result : Except Unit Nat
  attempts : Nat
  sleeps : List ℚ
deriving Repr

/-- The `while retries < 5` loop of `_retry_request`, entered with the
given value of `retries`; `outcomes n` is what the attempt made while
`retries = n` observes.  A 5xx response or a connection error increments
`retries`, sleeps `retries**4 / 100` and loops; any other response is
returned; once `retries` reaches 5 the loop exits and raises
`APIException`. -/
def retryFrom (outcomes : Nat → AttemptOutcome) (retries : Nat) : RetryTrace :=
  if h : retries < 5 then
    match outcomes retries with
    | .resp s =>
      if 500 ≤ s ∧ s ≤ 599 then
        let t := retryFrom outcomes (retries + 1)
        ⟨t.result, t.attempts + 1, backoffDelay (retries + 1) :: t.sleeps⟩
      else ⟨Except.ok s, 1, []⟩
    | .exn =>
      let t := retryFrom outcomes (retries + 1)
      ⟨t.result, t.attempts + 1, backoffDelay (retries + 1) :: t.sleeps⟩
  else ⟨Except.error (), 0, []⟩
termination_by 5 - retries

/-- One `_retry_request` call: the loop starts with `retries = 0`. -/
def retryRequest (outcomes : Nat → AttemptOutcome) : RetryTrace :=
  retryFrom outcomes 0

lemma retryFrom_stop (outcomes : Nat → AttemptOutcome) (retries : Nat)
    (h : ¬ retries < 5) :
    retryFrom outcomes retries = ⟨Except.error (), 0, []⟩ := by
  unfold retryFrom
  rw [dif_neg h]

lemma retryFrom_transient (outcomes : Nat → AttemptOutcome) (retries : Nat)
    (h : retries < 5) (ht : transient (outcomes retries) = true) :
    retryFrom outcomes retries =
      ⟨(retryFrom outcomes (retries + 1)).result,
        (retryFrom outcomes (retries + 1)).attempts + 1,
        backoffDelay (retries + 1) :: (retryFrom outcomes (retries + 1)).sleeps⟩ := by
  conv_lhs => rw [retryFrom.eq_def]
  rw [dif_pos h]
  cases ho : outcomes retries with
  | resp s =>
    rw [ho] at ht
    simp only [transient, Bool.and_eq_true, decide_eq_true_eq] at ht
    dsimp only
    rw [if_pos ht]
  | exn => rfl

lemma retryFrom_success (outcomes : Nat → AttemptOutcome) (retries s : Nat)
    (h : retries < 5) (ho : outcomes retries = .resp s)
    (hs : ¬ (500 ≤ s ∧ s ≤ 599)) :
    retryFrom outcomes retries = ⟨Except.ok s, 1, []⟩ := by
  unfold retryFrom
  rw [dif_pos h, ho]
  dsimp only
  rw [if_neg hs]

lemma retryFrom_attempts_le (outcomes : Nat → AttemptOutcome) :
    ∀ (n retries : Nat), 5 - retries ≤ n →
      (retryFrom outcomes retries).attempts ≤ 5 - retries := by
  intro n
  induction n with
  | zero =>
    intro retries h
    rw [retryFrom_stop outcomes retries (by omega)]
    show (0 : Nat) ≤ 5 - retries
    omega
  | succ n ih =>
    intro retries h
    by_cases h5 : retries < 5
    · cases ho : outcomes retries with
      | resp s =>
        by_cases hs : 500 ≤ s ∧ s ≤ 599
        · have hrec := ih (retries + 1) (by omega)
          rw [retryFrom_transient outcomes retries h5
            (by rw [ho]; simp [transient, hs.1, hs.2])]
          show (retryFrom outcomes (retries + 1)).attempts + 1 ≤ 5 - retries
          omega
        · rw [retryFrom_success outcomes retries s h5 ho hs]
          show 1 ≤ 5 - retries
          omega
      | exn =>
        have hrec := ih (retries + 1) (by omega)
        rw [retryFrom_transient outcomes retries h5 (by rw [ho]; rfl)]
        show (retryFrom outcomes (retries + 1)).attempts + 1 ≤ 5 - retries
        omega
    · rw [retryFrom_stop outcomes retries h5]
      show 0 ≤ 5 - retries
      omega

lemma retryFrom_all_transient (outcomes : Nat → AttemptOutcome)
    (hall : ∀ m, m < 5 → transient (outcomes m) = true) :
    ∀ (n retries : Nat), 5 - retries ≤ n →
      (retryFrom outcomes retries).result = Except.error () ∧
      (retryFrom outcomes retries).attempts = 5 - retries := by
  intro n
  induction n with
  | zero =>
    intro retries h
    rw [retryFrom_stop outcomes retries (by omega)]
    refine ⟨rfl, ?_⟩
    show (0 : Nat) = 5 - retries
    omega
  | succ n ih =>
    intro retries h
    by_cases h5 : retries < 5
    · have hrec := ih (retries + 1) (by omega)
      rw [retryFrom_transient outcomes retries h5 (hall retries h5)]
      refine ⟨hrec.1, ?_⟩
      show (retryFrom outcomes (retries + 1)).attempts + 1 = 5 - retries
      omega
    · rw [retryFrom_stop outcomes retries h5]
      refine ⟨rfl, ?_⟩
      show (0 : Nat) = 5 - retries
      omega

lemma retryFrom_sleeps_shape (outcomes : Nat → AttemptOutcome) :
    ∀ (n retries : Nat), 5 - retries ≤ n →
      ∃ k, (retryFrom outcomes retries).sleeps =
        (List.range k).map (fun i => backoffDelay (retries + 1 + i)) := by
  intro n
  induction n with
  | zero =>
    intro retries h
    rw [retryFrom_stop outcomes retries (by omega)]
    exact ⟨0, rfl⟩
  | succ n ih =>
    intro retries h
    by_cases h5 : retries < 5
    · by_cases htr : transient (outcomes retries) = true
      · obtain ⟨k, hk⟩ := ih (retries + 1) (by omega)
        refine ⟨k + 1, ?_⟩
        rw [retryFrom_transient outcomes retries h5 htr]
        show backoffDelay (retries + 1) :: (retryFrom outcomes (retries + 1)).sleeps =
          (List.range (k + 1)).map (fun i => backoffDelay (retries + 1 + i))
        rw [hk, List.range_succ_eq_map, List.map_cons, List.map_map]
        have htail :
            List.map (fun i => backoffDelay (retries + 1 + 1 + i)) (List.range k) =
              List.map ((fun i => backoffDelay (retries + 1 + i)) ∘ Nat.succ)
                (List.range k) := by
          apply List.map_congr_left
          intro i _
          show backoffDelay (retries + 1 + 1 + i) = backoffDelay (retries + 1 + (i + 1))
          congr 1
          omega
        rw [htail]
      · cases ho : outcomes retries with
        | resp s =>
          have hs : ¬ (500 ≤ s ∧ s ≤ 599) := by
            intro hc
            apply htr
            rw [ho]
            simp [transient, hc.1, hc.2]
          rw [retryFrom_success outcomes retries s h5 ho hs]
          exact ⟨0, rfl⟩
        | exn =>
          exact absurd (by rw [ho]; rfl) htr
    · rw [retryFrom_stop outcomes retries h5]
      exact ⟨0, rfl⟩

lemma backoffDelay_mono (a b : Nat) (hab : a ≤ b) :
    backoffDelay a ≤ backoffDelay b := by
  unfold backoffDelay
  have hc : (a : ℚ) ≤ (b : ℚ) := by exact_mod_cast hab
  have h4 : (a : ℚ) ^ 4 ≤ (b : ℚ) ^ 4 :=
    pow_le_pow_left (by positivity) hc 4
  exact (div_le_div_right (by norm_num)).2 h4

/-- C3: for every sequence of attempt outcomes, `_retry_request` makes at
most 5 HTTP attempts; if every attempt fails transiently (connection
error, timeout or 5xx) the call raises `APIException` after exactly 5
attempts; and the sleeps are exactly `1^4/100, 2^4/100, ...`, i.e. the
delay before attempt `n+1` is `n^4/100` seconds, a non-decreasing
schedule. -/
theorem retry_request_spec (outcomes : Nat → AttemptOutcome) :
    (retryRequest outcomes).attempts ≤ 5 ∧
    ((∀ m, m < 5 → transient (outcomes m) = true) →
      (retryRequest outcomes).result = Except.error () ∧
      (retryRequest outcomes).attempts = 5) ∧
    (∃ k, (retryRequest outcomes).sleeps =
      (List.range k).map (fun i => backoffDelay (i + 1))) ∧
    (retryRequest outcomes).sleeps.Pairwise (· ≤ ·) := by
  have hshape := retryFrom_sleeps_shape outcomes 5 0 (by omega)
  have hshape2 : ∃ k, (retryRequest outcomes).sleeps =
      (List.range k).map (fun i => backoffDelay (i + 1)) := by
    obtain ⟨k, hk⟩ := hshape
    refine ⟨k, ?_⟩
    unfold retryRequest
    rw [hk]
    apply List.map_congr_left
    intro i _
    congr 1
    omega
  refine ⟨retryFrom_attempts_le outcomes 5 0 (by omega), ?_, hshape2, ?_⟩
  · intro hall
    exact retryFrom_all_transient outcomes hall 5 0 (by omega)
  · obtain ⟨k, hk⟩ := hshape2
    rw [hk]
    refine List.Pairwise.map _ ?_ (List.pairwise_lt_range k)
    intro a b hab
    exact backoffDelay_mono (a + 1) (b + 1) (by omega)

/-- C3 witness: the retry bound, exhaustion behaviour and backoff schedule
at the concrete outcome sequence in which every attempt times out. -/
theorem retry_request_spec_witness :
    (retryRequest (fun _ => AttemptOutcome.exn)).attempts ≤ 5 ∧
    ((∀ m, m < 5 → transient ((fun _ => AttemptOutcome.exn) m) = true) →
      (retryRequest (fun _ => AttemptOutcome.exn)).result = Except.error () ∧
      (retryRequest (fun _ => AttemptOutcome.exn)).attempts = 5) ∧
    (∃ k, (retryRequest (fun _ => AttemptOutcome.exn)).sleeps =
      (List.range k).map (fun i => backoffDelay (i + 1))) ∧
    (retryRequest (fun _ => AttemptOutcome.exn)).sleeps.Pairwise (· ≤ ·) :=
  retry_request_spec (fun _ => AttemptOutcome.exn)

/-! ## Parallel request pool (`EsiClient.multi_request`, `esipy/client.py`
lines 117-136) -/

/-- The clamp on the worker count, `threads = max(min(threads, 100), 1)`
(line 123), over the integers so that zero and negative caller inputs are
covered. -/
def multi_request_threads (threads : Int) : Int := max (min threads 100) 1

/-- C8: for every caller-supplied `threads` value, the pool's effective
worker count is `max(min(threads, 100), 1)`, which always lies between 1
and 100 inclusive. -/
theorem multi_request_threads_clamped (threads : Int) :
    multi_request_threads threads = max (min threads 100) 1 ∧
    1 ≤ multi_request_threads threads ∧
    multi_request_threads threads ≤ 100 := by
  refine ⟨rfl, le_max_right _ _, ?_⟩
  unfold multi_request_threads
  exact max_le (min_le_right _ _) (by norm_num)

/-- The result-collection behaviour of `multi_request` (lines 125-136):
`_multi_shim` issues one job's request and pairs the job with its response;
`ThreadPoolExecutor.map` yields results in input order, re-raising a job's
exception when its position is reached, which aborts the collection loop
and propagates out of `multi_request`.  `net` gives each job's outcome
(`Except.error` models the job's request raising). -/
def multi_request_run (net : α → Except ε β) : List α → Except ε (List (α × β))
  | [] => Except.ok []
  | j :: js =>
    match net j with
    | Except.error e => Except.error e
    | Except.ok r =>
      match multi_request_run net js with
      | Except.error e => Except.error e
      | Except.ok rs => Except.ok ((j, r) :: rs)

/-- The job outcomes of the C7 counterexample: only job 2's request
raises. -/
def netOneFails (j : Nat) : Except Unit Nat :=
  if j = 2 then Except.error () else Except.ok j

/-- C7 counterexample: of the jobs `[1, 2, 3]` only job 2 fails, yet
`multi_request` returns no result list at all -- there is no per-job
success-or-error result; the one failure aborts the siblings' result
collection and the exception propagates to the caller. -/
theorem multi_request_not_isolated :
    multi_request_run netOneFails [1, 2, 3] = Except.error () ∧
    ¬ ∃ rs, multi_request_run netOneFails [1, 2, 3] = Except.ok rs := by
  refine ⟨rfl, ?_⟩
  rintro ⟨rs, hrs⟩
  rw [show multi_request_run netOneFails [1, 2, 3] = Except.error ()
    from rfl] at hrs
  exact Except.noConfusion hrs

/-- C7 amended: `multi_request` either returns exactly one result per input
job, in input order, each job paired with its own successful response --
the case whenever every job succeeds -- or some job's request raised, in
which case the first such failure propagates as an exception and no result
list is returned at all: per-job error isolation does not hold. -/
theorem multi_request_characterisation (net : α → Except ε β)
    (jobs : List α) :
    (∃ rs, multi_request_run net jobs = Except.ok rs ∧
      rs.map Prod.fst = jobs ∧ ∀ p ∈ rs, net p.1 = Except.ok p.2) ∨
    (∃ e j, j ∈ jobs ∧ net j = Except.error e ∧
      multi_request_run net jobs = Except.error e) := by
  induction jobs with
  | nil => exact Or.inl ⟨[], rfl, rfl, by simp⟩
  | cons j js ih =>
    cases hj : net j with
    | error e =>
      refine Or.inr ⟨e, j, List.mem_cons_self j js, hj, ?_⟩
      simp [multi_request_run, hj]
    | ok r =>
      rcases ih with ⟨rs, hrs, hfst, hok⟩ | ⟨e, j2, hmem, hj2, herr⟩
      · refine Or.inl ⟨(j, r) :: rs, ?_, ?_, ?_⟩
        · simp [multi_request_run, hj, hrs]
        · simp [hfst]
        · intro p hp
          rcases List.mem_cons.1 hp with rfl | hp2
          · exact hj
          · exact hok p hp2
      · refine Or.inr ⟨e, j2, List.mem_cons_of_mem j hmem, hj2, ?_⟩
        simp [multi_request_run, hj, herr]

/-- C7 amended-claim witness at the counterexample's inputs. -/
theorem multi_request_characterisation_witness :
    (∃ rs, multi_request_run netOneFails [1, 2, 3] = Except.ok rs ∧
      rs.map Prod.fst = [1, 2, 3] ∧
      ∀ p ∈ rs, netOneFails p.1 = Except.ok p.2) ∨
    (∃ e j, j ∈ [1, 2, 3] ∧ netOneFails j = Except.error e ∧
      multi_request_run netOneFails [1, 2, 3] = Except.error e) :=
  multi_request_characterisation netOneFails [1, 2, 3]

/-- C10: when every job's request succeeds, `multi_request` returns its
results in exactly the input order: the i-th result pairs the i-th input
job with that job's own response -- stronger than the unordered delivery
the docstring promises. -/
theorem multi_request_ordered (net : α → Except ε β) (jobs : List α)
    (h : ∀ j ∈ jobs, ∃ r, net j = Except.ok r) :
    ∃ rs, multi_request_run net jobs = Except.ok rs ∧
      rs.map Prod.fst = jobs ∧ ∀ p ∈ rs, net p.1 = Except.ok p.2 := by
  induction jobs with
  | nil => exact ⟨[], rfl, rfl, by simp⟩
  | cons j js ih =>
    obtain ⟨r, hr⟩ := h j (List.mem_cons_self j js)
    obtain ⟨rs, hrs, hfst, hok⟩ := ih (fun x hx => h x (List.mem_cons_of_mem j hx))
    refine ⟨(j, r) :: rs, ?_, ?_, ?_⟩
    · simp [multi_request_run, hr, hrs]
    · simp [hfst]
    · intro p hp
      rcases List.mem_cons.1 hp with rfl | hp2
      · exact hr
      · exact hok p hp2

/-- The all-successful job outcomes of the C10 witness. -/
def netSucc : Nat → Except Unit Nat := fun j => Except.ok (j + 1)

/-- C10 witness: three successful jobs come back in input order, each
paired with its own response. -/
theorem multi_request_ordered_witness :
    ∃ rs, multi_request_run netSucc [3, 1, 2] = Except.ok rs ∧
      rs.map Prod.fst = [3, 1, 2] ∧ ∀ p ∈ rs, netSucc p.1 = Except.ok p.2 :=
  multi_request_ordered netSucc [3, 1, 2] (fun j _ => ⟨j + 1, rfl⟩)

/-! ## Conditional caching client (`EsiClient.request`, `esipy/client.py`
lines 138-172, with `__cache_response`, lines 178-201) -/

/-- The response headers the cache logic reads: the expiry instant (the
parsed `expires` header) and the entity tag. -/
structure HttpHeaders where
  expires : Option Int
  etag : Option String
deriving DecidableEq, Repr

/-- A response; also the shape stored in the cache (`CachedResponse`,
lines 23-25). -/
structure HttpResponse where
  status_code : Nat
  headers : HttpHeaders
  content : String
  url : String
deriving DecidableEq, Repr

/-- Modelled from the spec: `get_cache_time_left` lives in
`esipy/utils.py`, which is not part of this snapshot; per the spec's
conditional-revalidation design it parses the expiry header and returns
the seconds remaining until that instant, i.e. its value minus the current
time. -/
def get_cache_time_left (now : Int) (expiresAt : Int) : Int := expiresAt - now

/-- `__cache_response` for a safe (GET) request: a 200 response carrying an
unexpired `expires` header replaces the entry wholesale; otherwise the
entry is left as it was (lines 183-201). -/
def cache_response (now : Int) (res : HttpResponse)
    (cache : Option HttpResponse) : Option HttpResponse :=
  match res.headers.expires with
  | some e => if 0 ≤ get_cache_time_left now e then some res else cache
  | none => cache

/-- `EsiClient.request` (lines 138-172) for a GET with `raise_on_error`
left false, relative to the single cache entry of this call's cache key;
the cache store is modelled from the spec as a plain key/value dict whose
stale entries stay retrievable (the bundled backend has no eviction).
`net cond` is the network's response when the request is sent with
`If-None-Match` set to `cond`.  The function returns the response handed
to the caller together with the cache entry afterwards.  A fresh entry is
returned without a network call; a stale entry with an etag leads to a
conditional request; a stale or header-less entry without an etag is
invalidated.  `request()` holds no 304 branch: whatever the network
returns is handed back as is, and only a 200 updates the cache. -/
def esiRequest (now : Int) (net : Option String → HttpResponse)
    (cache : Option HttpResponse) : HttpResponse × Option HttpResponse :=
  match cache with
  | none =>
    let response := net none
    (response,
      if response.status_code = 200 then cache_response now response none
      else none)
  | some c =>
    match c.headers.expires with
    | some e =>
      if 0 ≤ get_cache_time_left now e then (c, some c)
      else
        match c.headers.etag with
        | some tag =>
          let response := net (some tag)
          (response,
            if response.status_code = 200 then
              cache_response now response (some c)
            else some c)
        | none =>
          let response := net none
          (response,
            if response.status_code = 200 then cache_response now response none
            else none)
    | none =>
      match c.headers.etag with
      | some tag =>
        let response := net (some tag)
        (response,
          if response.status_code = 200 then
            cache_response now response (some c)
          else some c)
      | none =>
        let response := net none
        (response,
          if response.status_code = 200 then cache_response now response none
          else none)

/-- The stale cached entry of the C4 failing input: it expired at time 50
and carries an etag and the previously fetched body. -/
def staleEntry : HttpResponse :=
  ⟨200, ⟨some 50, some "W-abc"⟩, "cached-body", "https://esi.test/orders"⟩

/-- The remote's behaviour in the C4 failing input: 304 Not Modified with a
fresh expiry and an empty body, whatever conditional header is sent. -/
def notModified : Option String → HttpResponse :=
  fun _ => ⟨304, ⟨some 200, some "W-abc"⟩, "", "https://esi.test/orders"⟩

/-- C4, the code bug, evaluated: at time 100 the cached entry is stale
(expired at 50) and has an etag; the remote answers 304; yet
`EsiClient.request` hands the caller the raw 304 response with its empty
body -- not the cached body -- and leaves the cache entry untouched, its
expiry not refreshed from the 304's headers.  The claimed behaviour is
exactly what `EsiApp.__get_or_create_swagger` implements at
`esipy/app.py` lines 85-89 and what the client's own `no_etag_body`
docstring describes; `request()` simply lacks the 304 branch. -/
theorem esiRequest_304_returns_raw :
    esiRequest 100 notModified (some staleEntry) =
      (notModified (some "W-abc"), some staleEntry) ∧
    (esiRequest 100 notModified (some staleEntry)).1.content = "" ∧
    staleEntry.content = "cached-body" ∧
    (esiRequest 100 notModified (some staleEntry)).2 = some staleEntry :=
  ⟨rfl, rfl, rfl, rfl⟩
